import Mathlib

/-!
Verification of the vcardtools command-line program (`vcardtools.py`).

The pure logic of `vcardtools.py` is embedded shallowly below:

* `sanitise_name` / `generate_vcard_filename` / `generate_group_dirname`
  model the filename sanitisation (source lines 139-176); the external
  `unidecode` transliteration is a parameter of the model.
* `Args`, `LibOptions`, `setLogLevel`, `applyMatchOptions`, `processConfig`
  model the configuration phase of `main` (source lines 184-236),
  which runs before any filesystem access.
* `processGroup`, `notGroupedActions`, `mainWrap` model the output phase of
  `main` (source lines 297-356) as lists of filesystem actions.
* The matching library `vcardlib` is not part of the repository sources;
  the comparator (`recordsMatch`) and the grouping function
  (`get_vcards_groups`) are modelled from the specification.
-/

/-- A character is ASCII when its code point is below 128. -/
def isAsciiChar (c : Char) : Bool := c.toNat < 128

theorem char_toNat_ofNat_valid {n : Nat} (h : n.isValidChar) :
    (Char.ofNat n).toNat = n := by
  rw [Char.ofNat, dif_pos h]
  rfl

theorem toLower_toNat (c : Char) :
    (Char.toLower c).toNat =
      if 65 ≤ c.toNat ∧ c.toNat ≤ 90 then c.toNat + 32 else c.toNat := by
  unfold Char.toLower
  split
  · next h =>
    rw [if_pos (by omega)]
    exact char_toNat_ofNat_valid (Or.inl (by omega))
  · next h =>
    rw [if_neg (by omega)]

theorem toLower_idem (c : Char) :
    Char.toLower (Char.toLower c) = Char.toLower c := by
  conv_lhs => rw [Char.toLower]
  have h := toLower_toNat c
  split
  · next hc =>
    exfalso
    by_cases hin : 65 ≤ c.toNat ∧ c.toNat ≤ 90
    · rw [if_pos hin] at h
      omega
    · rw [if_neg hin] at h
      omega
  · rfl

theorem toLower_ascii {c : Char} (h : isAsciiChar c = true) :
    isAsciiChar (Char.toLower c) = true := by
  have ht := toLower_toNat c
  simp only [isAsciiChar, decide_eq_true_eq] at h ⊢
  split at ht <;> omega

/-- The invalid filename characters of `sanitise_name`
    (the character class `.\\/"'!@#?$%^&*|(){};:<>[]`, source line 157). -/
def invalidFilenameChars : List Char :=
  ['.', '\\', '/', '"', '\x27', '!', '@', '#', '?', '$', '%', '^', '&', '*',
   '|', '(', ')', '\x7b', '\x7d', ';', ':', '<', '>', '[', ']']

/-- Whether a character belongs to the character class replaced by
    `sanitise_name`; when `noSpace` is set the space is added to the class
    (source lines 158-159). -/
def badChar (noSpace : Bool) (c : Char) : Bool :=
  (noSpace && (c == ' ')) || invalidFilenameChars.contains c

/-- Replace every maximal run of characters satisfying `bad` by the single
    character `rep`; the boolean argument records whether the previous
    character was part of such a run.  `replRuns bad rep false` is the model
    of Python `re.sub('[bad]+', rep, s)`. -/
def replRuns (bad : Char → Bool) (rep : Char) : Bool → List Char → List Char
  | _, [] => []
  | prevBad, c :: cs =>
    if bad c then
      if prevBad then replRuns bad rep true cs
      else rep :: replRuns bad rep true cs
    else c :: replRuns bad rep false cs

/-- The file-naming configuration of `vcardtools`: the two boolean CLI
    options, the replacement character, and the external `unidecode`
    transliteration (a parameter of the model). -/
structure SanCfg where
  noSpace : Bool
  lowerCase : Bool
  rep : Char
  udec : List Char → List Char

/-- Model of `sanitise_name` (source lines 139-165): transliterate with
    `unidecode`, optionally lower-case, replace runs of invalid characters
    by the replacement character, then collapse runs of the replacement
    character. -/
def sanitiseList (scfg : SanCfg) (l : List Char) : List Char :=
  let s1 := scfg.udec l
  let s2 := if scfg.lowerCase then s1.map Char.toLower else s1
  let s3 := replRuns (badChar scfg.noSpace) scfg.rep false s2
  replRuns (fun c => c == scfg.rep) scfg.rep false s3

/-- `sanitise_name` on `String`s. -/
def sanitise_name (scfg : SanCfg) (s : String) : String :=
  ⟨sanitiseList scfg s.data⟩

/-- Model of `generate_vcard_filename` (source lines 167-171). -/
def generate_vcard_filename (scfg : SanCfg) (a_name : String) (ext : String) : String :=
  sanitise_name scfg a_name ++ ext

/-- Model of `generate_group_dirname` (source lines 173-176). -/
def generate_group_dirname (scfg : SanCfg) (a_name : String) : String :=
  sanitise_name scfg a_name

theorem replRuns_mem {bad : Char → Bool} {rep : Char} :
    ∀ {b : Bool} {l : List Char} {c : Char}, c ∈ replRuns bad rep b l →
      c = rep ∨ (c ∈ l ∧ bad c = false) := by
  intro b l
  induction l generalizing b with
  | nil => intro c hc; simp [replRuns] at hc
  | cons d ds ih =>
    intro c hc
    simp only [replRuns] at hc
    by_cases hd : bad d
    · rw [if_pos hd] at hc
      cases b with
      | true =>
        rw [if_pos rfl] at hc
        rcases ih hc with h | ⟨h1, h2⟩
        · exact Or.inl h
        · exact Or.inr ⟨List.mem_cons_of_mem _ h1, h2⟩
      | false =>
        rw [if_neg Bool.false_ne_true] at hc
        rcases List.mem_cons.mp hc with h | h
        · exact Or.inl h
        · rcases ih h with h | ⟨h1, h2⟩
          · exact Or.inl h
          · exact Or.inr ⟨List.mem_cons_of_mem _ h1, h2⟩
    · rw [if_neg hd] at hc
      rcases List.mem_cons.mp hc with h | h
      · subst h
        exact Or.inr ⟨List.mem_cons_self _ _, Bool.eq_false_iff.mpr hd⟩
      · rcases ih h with h | ⟨h1, h2⟩
        · exact Or.inl h
        · exact Or.inr ⟨List.mem_cons_of_mem _ h1, h2⟩

theorem replRuns_id_of_clean {bad : Char → Bool} {rep : Char} :
    ∀ {l : List Char}, (∀ c ∈ l, bad c = false) →
      replRuns bad rep false l = l := by
  intro l
  induction l with
  | nil => intro _; rfl
  | cons d ds ih =>
    intro h
    have hd : ¬ (bad d = true) := by
      rw [h d (List.mem_cons_self _ _)]
      exact Bool.false_ne_true
    simp only [replRuns]
    rw [if_neg hd]
    rw [ih fun c hc => h c (List.mem_cons_of_mem _ hc)]

theorem replRuns_collapse_head {rep : Char} :
    ∀ (l : List Char) (h : Char),
      (replRuns (fun c => c == rep) rep true l).head? = some h → h ≠ rep := by
  intro l
  induction l with
  | nil => intro h hh; simp [replRuns] at hh
  | cons d ds ih =>
    intro h hh
    simp only [replRuns] at hh
    by_cases hd : d = rep
    · rw [if_pos (beq_iff_eq.mpr hd)] at hh
      rw [if_pos (by trivial)] at hh
      exact ih h hh
    · rw [if_neg (by simp [beq_eq_false_iff_ne.mpr hd])] at hh
      rw [List.head?_cons, Option.some.injEq] at hh
      subst hh
      exact hd

theorem replRuns_collapse_chain {rep : Char} :
    ∀ (l : List Char) (b : Bool),
      List.Chain' (fun a a' => ¬(a = rep ∧ a' = rep))
        (replRuns (fun c => c == rep) rep b l) := by
  intro l
  induction l with
  | nil => intro b; simp [replRuns]
  | cons d ds ih =>
    intro b
    simp only [replRuns]
    by_cases hd : d = rep
    · subst hd
      rw [if_pos (beq_iff_eq.mpr rfl)]
      cases b with
      | true =>
        rw [if_pos rfl]
        exact ih true
      | false =>
        rw [if_neg Bool.false_ne_true]
        rw [List.chain'_cons']
        refine ⟨fun y hy => ?_, ih true⟩
        intro hy2
        exact replRuns_collapse_head ds y hy hy2.2
    · rw [if_neg (by simp [beq_eq_false_iff_ne.mpr hd])]
      rw [List.chain'_cons']
      exact ⟨fun y _ => fun h' => hd h'.1, ih false⟩

theorem replRuns_collapse_fix {rep : Char} :
    ∀ (l : List Char),
      List.Chain' (fun a a' => ¬(a = rep ∧ a' = rep)) l →
      (replRuns (fun c => c == rep) rep false l = l ∧
       ((∀ h, l.head? = some h → h ≠ rep) →
         replRuns (fun c => c == rep) rep true l = l)) := by
  intro l
  induction l with
  | nil => intro _; exact ⟨rfl, fun _ => rfl⟩
  | cons d ds ih =>
    intro hchain
    rw [List.chain'_cons'] at hchain
    obtain ⟨hhead, htail⟩ := hchain
    have ihds := ih htail
    by_cases hd : d = rep
    · subst hd
      constructor
      · simp only [replRuns]
        rw [if_pos (beq_iff_eq.mpr rfl), if_neg Bool.false_ne_true]
        rw [ihds.2 fun h hh => fun heq => hhead h (by rw [hh]; rfl) ⟨rfl, heq⟩]
      · intro hne
        exact absurd rfl (hne _ rfl)
    · have hbd : ¬ ((d == rep) = true) := by simp [beq_eq_false_iff_ne.mpr hd]
      constructor
      · simp only [replRuns]
        rw [if_neg hbd, ihds.1]
      · intro _
        simp only [replRuns]
        rw [if_neg hbd, ihds.1]

/-- The shape of a `sanitise_name` result (with replacement character `'_'`):
    all ASCII, free of invalid filename characters, lower-cased when the
    lower-case option is set, and with no two consecutive underscores. -/
def cleanOut (noSpace lower : Bool) (t : List Char) : Prop :=
  (∀ c ∈ t, isAsciiChar c = true) ∧
  (∀ c ∈ t, badChar noSpace c = false) ∧
  (lower = true → ∀ c ∈ t, Char.toLower c = c) ∧
  List.Chain' (fun a a' => ¬(a = '_' ∧ a' = '_')) t

theorem underscore_not_bad (noSpace : Bool) : badChar noSpace '_' = false := by
  cases noSpace <;> decide

theorem sanitiseList_clean (noSpace lower : Bool) (udec : List Char → List Char)
    (hud_ascii : ∀ l c, c ∈ udec l → isAsciiChar c = true)
    (l : List Char) :
    cleanOut noSpace lower (sanitiseList ⟨noSpace, lower, '_', udec⟩ l) := by
  have hs2 : ∀ c ∈ (if lower then (udec l).map Char.toLower else udec l),
      isAsciiChar c = true ∧ (lower = true → Char.toLower c = c) := by
    cases lower with
    | true =>
      rw [if_pos rfl]
      intro c hc
      obtain ⟨x, hx, rfl⟩ := List.mem_map.mp hc
      exact ⟨toLower_ascii (hud_ascii l x hx), fun _ => toLower_idem x⟩
    | false =>
      rw [if_neg Bool.false_ne_true]
      intro c hc
      exact ⟨hud_ascii l c hc, fun h => absurd h Bool.false_ne_true⟩
  have hs3 : ∀ c ∈ replRuns (badChar noSpace) '_' false
      (if lower then (udec l).map Char.toLower else udec l),
      isAsciiChar c = true ∧ badChar noSpace c = false ∧
        (lower = true → Char.toLower c = c) := by
    intro c hc
    rcases replRuns_mem hc with rfl | ⟨h1, h2⟩
    · exact ⟨by decide, underscore_not_bad noSpace, fun _ => by decide⟩
    · exact ⟨(hs2 c h1).1, h2, (hs2 c h1).2⟩
  show cleanOut noSpace lower (replRuns (fun c => c == '_') '_' false _)
  refine ⟨?_, ?_, ?_, replRuns_collapse_chain _ false⟩
  · intro c hc
    rcases replRuns_mem hc with rfl | ⟨h1, _⟩
    · decide
    · exact (hs3 c h1).1
  · intro c hc
    rcases replRuns_mem hc with rfl | ⟨h1, _⟩
    · exact underscore_not_bad noSpace
    · exact (hs3 c h1).2.1
  · intro hlow c hc
    rcases replRuns_mem hc with rfl | ⟨h1, _⟩
    · decide
    · exact (hs3 c h1).2.2 hlow

theorem sanitiseList_id_of_clean (noSpace lower : Bool) (udec : List Char → List Char)
    (hud_id : ∀ l, (∀ c ∈ l, isAsciiChar c = true) → udec l = l)
    (t : List Char) (ht : cleanOut noSpace lower t) :
    sanitiseList ⟨noSpace, lower, '_', udec⟩ t = t := by
  obtain ⟨ha, hb, hl, hchain⟩ := ht
  show replRuns (fun c => c == '_') '_' false
    (replRuns (badChar noSpace) '_' false
      (if lower then (udec t).map Char.toLower else udec t)) = t
  rw [hud_id t ha]
  have h2 : (if lower then t.map Char.toLower else t) = t := by
    cases lower with
    | true =>
      rw [if_pos rfl, List.map_congr_left (hl rfl)]
      simp
    | false =>
      rw [if_neg Bool.false_ne_true]
  rw [h2]
  rw [replRuns_id_of_clean hb]
  exact (replRuns_collapse_fix t hchain).1

/-- C8: with the default replacement character underscore and any fixed
setting of the no-space and lower-case filename options, `sanitise_name` is
idempotent: its output contains no invalid filename character and no two
consecutive replacement characters, so sanitising a second time changes
nothing.  The external `unidecode` transliteration is any function that is
the identity on ASCII strings and produces only ASCII output. -/
theorem c8_sanitise_name_idem (noSpace lower : Bool) (udec : List Char → List Char)
    (hud_id : ∀ l, (∀ c ∈ l, isAsciiChar c = true) → udec l = l)
    (hud_ascii : ∀ l c, c ∈ udec l → isAsciiChar c = true)
    (s : String) :
    sanitise_name ⟨noSpace, lower, '_', udec⟩
        (sanitise_name ⟨noSpace, lower, '_', udec⟩ s)
      = sanitise_name ⟨noSpace, lower, '_', udec⟩ s := by
  unfold sanitise_name
  congr 1
  exact sanitiseList_id_of_clean noSpace lower udec hud_id _
    (sanitiseList_clean noSpace lower udec hud_ascii s.data)

/-- A concrete stand-in for `unidecode`: keep only the ASCII characters. -/
def udecAsciiOnly : List Char → List Char := fun l => l.filter isAsciiChar

/-- Witness for C8 at a concrete transliteration and a concrete string. -/
theorem c8_sanitise_name_idem_witness :
    (∀ l, (∀ c ∈ l, isAsciiChar c = true) → udecAsciiOnly l = l) ∧
    (∀ l c, c ∈ udecAsciiOnly l → isAsciiChar c = true) ∧
    sanitise_name ⟨false, true, '_', udecAsciiOnly⟩
        (sanitise_name ⟨false, true, '_', udecAsciiOnly⟩ "John Doe (2).bak")
      = sanitise_name ⟨false, true, '_', udecAsciiOnly⟩ "John Doe (2).bak" :=
  ⟨fun _ h => List.filter_eq_self.mpr h,
   fun _ _ hc => List.of_mem_filter hc,
   c8_sanitise_name_idem false true udecAsciiOnly
     (fun _ h => List.filter_eq_self.mpr h)
     (fun _ _ hc => List.of_mem_filter hc)
     "John Doe (2).bak"⟩

theorem sanitise_name_sample_default :
    sanitise_name ⟨false, false, '_', fun l => l⟩ "a.(b c" = "a_b c" := by decide

theorem sanitise_name_sample_nospace_lower :
    sanitise_name ⟨true, true, '_', fun l => l⟩ "A.(b c" = "a_b_c" := by decide

/-- The parsed command-line arguments relevant to the configuration phase of
    `main`.  `argparse` guarantees the numeric options are integers
    (`type=int`, possibly negative) and performs no further validation. -/
structure Args where
  log_level : String
  no_match_approx : Bool
  match_attributes : List String
  match_ratio_arg : Int
  match_min_length : Int
  match_max_distance : Int
  no_match_same_first_letter : Bool
  match_startswith : Bool
  french_tweaks : Bool
  do_not_force_escape_commas : Bool
deriving DecidableEq, Repr

/-- The module-level options of the external `vcardlib` library that `main`
    assigns (source lines 204-236).  The startswith length window is a
    Python `range(lo, hi)`, kept as the pair of its bounds. -/
structure LibOptions where
  option_no_match_approx : Bool
  option_match_attributes : List String
  option_match_approx_min_length : Int
  option_match_approx_same_first_letter : Bool
  option_match_approx_startswith : Bool
  option_match_approx_max_distance : Int × Int
  option_match_approx_ratio_value : Int
  option_french_tweaks : Bool
  option_do_not_force_escape_commas : Bool
deriving DecidableEq, Repr

/-- Membership in a Python `range(lo, hi)` with the default step 1:
    `x in range(lo, hi)` holds iff `lo <= x < hi`. -/
def pyRangeContains (w : Int × Int) (x : Int) : Bool :=
  w.1 ≤ x && x < w.2

/-- The `choices` list of the `--log-level` option (source line 134). -/
def logLevelChoices : List String :=
  ["DEBUG", "INFO", "WARNING", "ERROR", "CRITICAL"]

/-- Model of the log-level dispatch at the start of `main` (source lines
    186-199): the four handled levels configure logging; any other value
    writes an error to stderr, prints the help text and exits with status 2. -/
def setLogLevel (lvl : String) : Except (Nat × String) String :=
  if lvl = "DEBUG" then .ok lvl
  else if lvl = "INFO" then .ok lvl
  else if lvl = "WARNING" then .ok lvl
  else if lvl = "ERROR" then .ok lvl
  else .error (2, "[ERROR] Invalid log level \x27" ++ lvl ++ "\x27\n\n")

/-- Model of the option-assignment block of `main` (source lines 204-236).
    Each numeric option is guarded by Python truthiness (`if args.x and
    isinstance(args.x, int)`), so the value `0` leaves the library option
    unchanged; the `isinstance` test is always true under `argparse`.
    The startswith window is assigned as `range(-d, d)` (source lines
    224-226).  The source assigns the fields one after another; since each
    assignment reads only its own previous value the block is modelled as a
    single record construction. -/
def applyMatchOptions (args : Args) (opts : LibOptions) : LibOptions :=
  { option_no_match_approx := args.no_match_approx
    option_match_attributes :=
      if args.match_attributes ≠ [] ∧ args.match_attributes ≠ opts.option_match_attributes
      then args.match_attributes.drop opts.option_match_attributes.length
      else opts.option_match_attributes
    option_match_approx_min_length :=
      if args.match_min_length ≠ 0 then args.match_min_length
      else opts.option_match_approx_min_length
    option_match_approx_same_first_letter := !args.no_match_same_first_letter
    option_match_approx_startswith := args.match_startswith
    option_match_approx_max_distance :=
      if args.match_max_distance ≠ 0
      then (-args.match_max_distance, args.match_max_distance)
      else opts.option_match_approx_max_distance
    option_match_approx_ratio_value :=
      if args.match_ratio_arg ≠ 0 then args.match_ratio_arg
      else opts.option_match_approx_ratio_value
    option_french_tweaks := args.french_tweaks
    option_do_not_force_escape_commas := args.do_not_force_escape_commas }

/-- The configuration phase of `main` before any filesystem access: the
    log-level dispatch (which may exit) followed by the option assignments
    (which cannot fail).  The destination-directory and input-file checks of
    `main` come strictly after this phase. -/
def processConfig (args : Args) (opts : LibOptions) : Except (Nat × String) LibOptions :=
  match setLogLevel args.log_level with
  | .error e => .error e
  | .ok _ => .ok (applyMatchOptions args opts)

/-- Baseline arguments: the `argparse` defaults of the CLI
    (source lines 27-137). -/
def argsBase : Args :=
  { log_level := "INFO"
    no_match_approx := false
    match_attributes := ["names", "mobiles", "emails"]
    match_ratio_arg := 100
    match_min_length := 5
    match_max_distance := 3
    no_match_same_first_letter := false
    match_startswith := false
    french_tweaks := false
    do_not_force_escape_commas := false }

/-- A concrete pre-assignment state of the `vcardlib` options, used where a
    claim needs a definite starting state. -/
def optsBase : LibOptions :=
  { option_no_match_approx := false
    option_match_attributes := ["names", "mobiles", "emails"]
    option_match_approx_min_length := 5
    option_match_approx_same_first_letter := true
    option_match_approx_startswith := false
    option_match_approx_max_distance := (-3, 3)
    option_match_approx_ratio_value := 100
    option_french_tweaks := false
    option_do_not_force_escape_commas := false }

/-- C1 counterexample: with the default `match_max_distance` of 3 the
assigned startswith-length window is the Python `range(-3, 3)`, and the
length difference `+3` is NOT inside it, contradicting the claim that the
window is the symmetric range `[-3, +3]` containing `+3`. -/
theorem c1_window_counterexample :
    (applyMatchOptions argsBase optsBase).option_match_approx_max_distance = (-3, 3) ∧
    pyRangeContains
      (applyMatchOptions argsBase optsBase).option_match_approx_max_distance 3 = false := by
  decide

/-- C1 (amended): for every configured `match_max_distance` `d > 0` the
startswith-length window is the half-open range `range(-d, d)`: the length
differences `-d` and `d - 1` are inside the window while `+d` is outside. -/
theorem c1_window_half_open (d : Int) (hd : 0 < d) :
    (applyMatchOptions { argsBase with match_max_distance := d } optsBase).option_match_approx_max_distance = (-d, d) ∧
    pyRangeContains (-d, d) (-d) = true ∧
    pyRangeContains (-d, d) (d - 1) = true ∧
    pyRangeContains (-d, d) d = false := by
  refine ⟨?_, ?_, ?_, ?_⟩
  · show (if d ≠ 0 then (-d, d) else optsBase.option_match_approx_max_distance) = (-d, d)
    rw [if_pos (by omega)]
  · simp only [pyRangeContains, Bool.and_eq_true, decide_eq_true_eq]
    omega
  · simp only [pyRangeContains, Bool.and_eq_true, decide_eq_true_eq]
    omega
  · simp only [pyRangeContains, Bool.and_eq_false_iff, decide_eq_false_iff_not]
    omega

/-- Witness for C1 (amended) at the default distance 3. -/
theorem c1_window_half_open_witness :
    (0 : Int) < 3 ∧
    ((applyMatchOptions { argsBase with match_max_distance := 3 } optsBase).option_match_approx_max_distance = (-3, 3) ∧
     pyRangeContains (-3, 3) (-3) = true ∧
     pyRangeContains (-3, 3) (3 - 1) = true ∧
     pyRangeContains (-3, 3) 3 = false) :=
  ⟨by decide, c1_window_half_open 3 (by decide)⟩

/-- Arguments carrying the invalid configuration values named by C3: an
out-of-range match ratio, a negative minimum length, and an unknown
match-attribute name appended after the defaults. -/
def argsInvalidThresholds : Args :=
  { argsBase with
    match_ratio_arg := 150
    match_min_length := -2
    match_attributes := ["names", "mobiles", "emails", "zzz"] }

/-- C3 counterexample: the configuration phase accepts an out-of-range
match ratio (150), a negative match-min-length (-2) and an unknown
match-attribute name ("zzz") without reporting any error: it returns
successfully with the invalid values copied into the library options,
instead of aborting with a non-zero exit status. -/
theorem c3_counterexample :
    processConfig argsInvalidThresholds optsBase
      = Except.ok
          { optsBase with
            option_match_attributes := ["zzz"]
            option_match_approx_min_length := -2
            option_match_approx_ratio_value := 150 } := by
  rfl

/-- C3 (amended): configuration errors that `argparse` itself detects
(non-integer option text, an invalid log-level choice, missing arguments)
abort before any file I/O with exit status 2, but the values of the integer
matching options and the match-attribute names are never validated: every
integer ratio, minimum length and maximum distance and every attribute list
is accepted and the configuration phase succeeds. -/
theorem c3_no_threshold_validation (r ml d : Int) (attrs : List String) :
    ∃ newOpts,
      processConfig
        { argsBase with
          match_ratio_arg := r
          match_min_length := ml
          match_max_distance := d
          match_attributes := attrs } optsBase
        = Except.ok newOpts := by
  exact ⟨_, rfl⟩

/-- C9: passing the value 0 for `--match-ratio`, `--match-min-length` or
`--match-max-distance` leaves the corresponding `vcardlib` option unchanged
at whatever value it had, because Python tests the value for truthiness
before assigning it. -/
theorem c9_zero_values_keep_library_defaults (opts : LibOptions) :
    (applyMatchOptions
        { argsBase with
          match_ratio_arg := 0
          match_min_length := 0
          match_max_distance := 0 } opts).option_match_approx_min_length
        = opts.option_match_approx_min_length ∧
    (applyMatchOptions
        { argsBase with
          match_ratio_arg := 0
          match_min_length := 0
          match_max_distance := 0 } opts).option_match_approx_max_distance
        = opts.option_match_approx_max_distance ∧
    (applyMatchOptions
        { argsBase with
          match_ratio_arg := 0
          match_min_length := 0
          match_max_distance := 0 } opts).option_match_approx_ratio_value
        = opts.option_match_approx_ratio_value := by
  refine ⟨?_, ?_, ?_⟩ <;> simp [applyMatchOptions]

/-- C10: the argument parser accepts CRITICAL as a `--log-level` choice,
yet the log-level dispatch in `main` has no CRITICAL branch, so such a run
falls into the invalid-log-level branch: it reports an invalid log level
and exits with status 2 before any further processing. -/
theorem c10_critical_log_level :
    "CRITICAL" ∈ logLevelChoices ∧
    processConfig { argsBase with log_level := "CRITICAL" } optsBase
      = Except.error (2, "[ERROR] Invalid log level \x27CRITICAL\x27\n\n") := by
  constructor
  · decide
  · rfl

/-- A filesystem effect of the output phase of `main`: creating a
    directory, writing one vCard (identified by its record key) to a path,
    or writing a merged vCard (built from the given member keys) to a path. -/
inductive FsAction where
  | mkdirAct (path : String)
  | writeAct (path : String) (key : String)
  | writeMergedAct (path : String) (keys : List String)
deriving DecidableEq, Repr

/-- The error message raised by `main` when a group of size <= 1 reaches
    the merge/group output branch (source lines 331-333). -/
def oneVcardGroupMsg (gname : String) : String :=
  "Only one vcard in group \x27" ++ gname ++ "\x27 (should not happen)"

/-- Model of one iteration of the grouped-output loop of `main` (source
    lines 302-333): a group of more than one member is merged into a single
    file or written into a group directory; otherwise a `RuntimeError`
    carrying the group name is raised. -/
def processGroup (scfg : SanCfg) (mergeFlag : Bool) (destDir ext : String)
    (gname : String) (glist : List String) : Except String (List FsAction) :=
  if 1 < glist.length then
    let d_path := destDir ++ "/" ++ generate_group_dirname scfg gname
    if mergeFlag then
      .ok [.writeMergedAct (d_path ++ ext) glist]
    else
      .ok (.mkdirAct d_path ::
        glist.map fun key =>
          .writeAct (d_path ++ "/" ++ generate_vcard_filename scfg key ext) key)
  else
    .error (oneVcardGroupMsg gname)

/-- Model of the not-grouped output loop of `main` (source lines 335-342):
    every ungrouped key is written unmerged to the destination root. -/
def notGroupedActions (scfg : SanCfg) (destDir ext : String)
    (keys : List String) : List FsAction :=
  keys.map fun key =>
    .writeAct (destDir ++ "/" ++ generate_vcard_filename scfg key ext) key

/-- C2: a group whose member list has size 1 that reaches the merge/group
output branch is never silently skipped or merged: the iteration raises a
fatal `RuntimeError` whose message contains the group key. -/
theorem c2_singleton_group_is_fatal (scfg : SanCfg) (mergeFlag : Bool)
    (destDir ext gname : String) (glist : List String)
    (hlen : glist.length = 1) :
    processGroup scfg mergeFlag destDir ext gname glist
        = Except.error (oneVcardGroupMsg gname) ∧
    ∃ pre post, oneVcardGroupMsg gname = pre ++ gname ++ post := by
  constructor
  · unfold processGroup
    rw [if_neg (by omega)]
  · exact ⟨"Only one vcard in group \x27", "\x27 (should not happen)", rfl⟩

/-- Witness for C2 at a concrete group of size 1. -/
theorem c2_singleton_group_is_fatal_witness :
    (["k1"] : List String).length = 1 ∧
    (processGroup ⟨false, false, '_', fun l => l⟩ true "dest" ".vcard" "g" ["k1"]
        = Except.error (oneVcardGroupMsg "g") ∧
     ∃ pre post, oneVcardGroupMsg "g" = pre ++ "g" ++ post) :=
  ⟨rfl, c2_singleton_group_is_fatal ⟨false, false, '_', fun l => l⟩ true
    "dest" ".vcard" "g" ["k1"] rfl⟩

/-- The exceptional outcomes of the body of `main`: a Python
    `KeyboardInterrupt`, or an explicit `sysexit` call. -/
inductive MainExc where
  | interrupt
  | exitCalled (code : Nat)
deriving DecidableEq, Repr

/-- Model of the exception handling of `main` (source lines 182 and
    353-356): the whole body runs inside `try ... except KeyboardInterrupt`;
    an interrupt is caught, a farewell line is logged and the process exits
    with status 3; no exception propagates to the user.  The result is the
    list of logged lines and the exit status (`none` = normal return). -/
def mainWrap (body : Except MainExc (List FsAction)) : List String × Option Nat :=
  match body with
  | .ok _ => ([], none)
  | .error (.exitCalled c) => ([], some c)
  | .error .interrupt => (["\nUser interupted. Bye."], some 3)

/-- C4: a keyboard interrupt during the batch is caught and logged, and the
process exits with status 3 - a non-zero status distinct from the status 2
used for configuration errors - instead of propagating a stack trace. -/
theorem c4_interrupt_exits_3 :
    mainWrap (Except.error MainExc.interrupt)
        = (["\nUser interupted. Bye."], some 3) ∧
    (3 : Nat) ≠ 0 ∧ (3 : Nat) ≠ 2 := by
  refine ⟨rfl, by decide, by decide⟩

/-- Modelled from the spec: one step of the grouping engine of `vcardlib`
    (`get_vcards_groups` is not part of the repository sources).  Adding a
    key `k` merges every existing component containing a record matching
    `k` into one component together with `k`; untouched components are
    kept.  Members stay in first-seen order, so the head of a component is
    its first-visited member. -/
def addKey (f : String → String → Bool) (comps : List (List String))
    (k : String) : List (List String) :=
  ((comps.filter fun c => c.any fun x => f k x).flatten ++ [k]) ::
    (comps.filter fun c => ! c.any fun x => f k x)

/-- Modelled from the spec: the connected components of the match relation
    over the input keys, built incrementally in input order. -/
def groupComponents (f : String → String → Bool) (keys : List String) :
    List (List String) :=
  keys.foldl (addKey f) []

/-- Modelled from the spec: `get_vcards_groups` returns the components of
    size at least 2, each named by its first-visited member, together with
    the list of ungrouped keys (the members of size-1 components). -/
def get_vcards_groups (f : String → String → Bool) (keys : List String) :
    List (String × List String) × List String :=
  let comps := groupComponents f keys
  ((comps.filter fun c => decide (1 < c.length)).map fun c => (c.headD "", c),
   (comps.filter fun c => ! decide (1 < c.length)).flatten)

theorem addKey_flatten_perm (f : String → String → Bool)
    (comps : List (List String)) (k : String) :
    List.Perm (addKey f comps k).flatten (comps.flatten ++ [k]) := by
  have h1 : List.Perm
      ((comps.filter fun c => c.any fun x => f k x).flatten ++
        (comps.filter fun c => ! c.any fun x => f k x).flatten)
      comps.flatten := by
    rw [← List.flatten_append]
    exact (List.filter_append_perm _ comps).flatten
  show List.Perm (((comps.filter fun c => c.any fun x => f k x).flatten ++ [k]) ++
      (comps.filter fun c => ! c.any fun x => f k x).flatten) _
  rw [List.append_assoc]
  refine List.Perm.trans (List.Perm.append_left _ List.perm_append_comm) ?_
  rw [← List.append_assoc]
  exact h1.append_right [k]

theorem foldl_addKey_flatten_perm (f : String → String → Bool) :
    ∀ (keys : List String) (acc : List (List String)),
      List.Perm (List.foldl (addKey f) acc keys).flatten (acc.flatten ++ keys) := by
  intro keys
  induction keys with
  | nil => intro acc; simp
  | cons k ks ih =>
    intro acc
    refine List.Perm.trans (ih (addKey f acc k)) ?_
    refine List.Perm.trans (List.Perm.append_right ks (addKey_flatten_perm f acc k)) ?_
    rw [List.append_assoc, List.singleton_append]

theorem groupComponents_flatten_perm (f : String → String → Bool)
    (keys : List String) :
    List.Perm (groupComponents f keys).flatten keys :=
  foldl_addKey_flatten_perm f keys []

theorem grouped_snd (f : String → String → Bool) (keys : List String) :
    (get_vcards_groups f keys).1.map Prod.snd
      = (groupComponents f keys).filter fun c => decide (1 < c.length) := by
  show ((((groupComponents f keys).filter fun c => decide (1 < c.length)).map
      fun c => (c.headD "", c)).map Prod.snd) = _
  rw [List.map_map]
  have h : (Prod.snd ∘ fun (c : List String) => (c.headD "", c)) = fun c => c := rfl
  rw [h, List.map_id']

theorem groups_partition_perm (f : String → String → Bool) (keys : List String) :
    List.Perm (((get_vcards_groups f keys).1.map Prod.snd).flatten ++
      (get_vcards_groups f keys).2) keys := by
  rw [grouped_snd]
  show List.Perm (_ ++ ((groupComponents f keys).filter fun c => ! decide (1 < c.length)).flatten) _
  rw [← List.flatten_append]
  exact ((List.filter_append_perm _ (groupComponents f keys)).flatten).trans
    (groupComponents_flatten_perm f keys)

/-- C7: the grouping result is a partition of the input key set: the keys
of the size-at-least-2 groups together with the ungrouped keys are a
permutation of the input keys, so every input key appears exactly once
(relative to its input multiplicity), none lost and none duplicated. -/
theorem c7_grouping_is_partition (f : String → String → Bool) (keys : List String) :
    List.Perm (((get_vcards_groups f keys).1.map Prod.snd).flatten ++
      (get_vcards_groups f keys).2) keys :=
  groups_partition_perm f keys

/-- C5: a record whose connected component has size 1 is reported in the
ungrouped set and written unmerged as an individual file in the destination
root directory; it belongs to no size-at-least-2 group, so no group
directory and no merged file is produced for it.  (Grouping is modelled
from the spec; the write loop is source lines 335-342.) -/
theorem c5_singleton_written_unmerged (f : String → String → Bool)
    (keys : List String) (k : String) (scfg : SanCfg) (destDir ext : String)
    (hnd : keys.Nodup) (hk : [k] ∈ groupComponents f keys) :
    k ∈ (get_vcards_groups f keys).2 ∧
    k ∉ ((get_vcards_groups f keys).1.map Prod.snd).flatten ∧
    FsAction.writeAct (destDir ++ "/" ++ generate_vcard_filename scfg k ext) k
      ∈ notGroupedActions scfg destDir ext (get_vcards_groups f keys).2 := by
  have hku : k ∈ (get_vcards_groups f keys).2 := by
    show k ∈ ((groupComponents f keys).filter fun c => ! decide (1 < c.length)).flatten
    refine List.mem_flatten.mpr ⟨[k], ?_, List.mem_singleton_self k⟩
    exact List.mem_filter.mpr ⟨hk, rfl⟩
  have hperm : List.Perm (((get_vcards_groups f keys).1.map Prod.snd).flatten ++
      (get_vcards_groups f keys).2) keys := groups_partition_perm f keys
  have hnd2 := hperm.symm.nodup hnd
  obtain ⟨-, -, hdisj⟩ := List.nodup_append.mp hnd2
  refine ⟨hku, fun hmem => hdisj hmem hku, ?_⟩
  exact List.mem_map.mpr ⟨k, hku, rfl⟩

/-- Witness for C5 on two records that match nothing. -/
theorem c5_singleton_written_unmerged_witness :
    (["alice", "bob"] : List String).Nodup ∧
    ["alice"] ∈ groupComponents (fun _ _ => false) ["alice", "bob"] ∧
    ("alice" ∈ (get_vcards_groups (fun _ _ => false) ["alice", "bob"]).2 ∧
     "alice" ∉ ((get_vcards_groups (fun _ _ => false) ["alice", "bob"]).1.map
        Prod.snd).flatten ∧
     FsAction.writeAct
        ("out" ++ "/" ++
          generate_vcard_filename ⟨false, false, '_', fun l => l⟩ "alice" ".vcard")
        "alice"
       ∈ notGroupedActions ⟨false, false, '_', fun l => l⟩ "out" ".vcard"
           (get_vcards_groups (fun _ _ => false) ["alice", "bob"]).2) :=
  ⟨by decide, by decide,
   c5_singleton_written_unmerged (fun _ _ => false) ["alice", "bob"] "alice"
     ⟨false, false, '_', fun l => l⟩ "out" ".vcard" (by decide) (by decide)⟩

/-- Modelled from the spec: a Levenshtein edit distance on normalized
    strings, the basis of the "Levenshtein-style ratio" of the Attribute
    Matcher (the fuzzy comparison lives in `vcardlib`, which is not part of
    the repository sources). -/
def lev : List Char → List Char → Nat
  | [], ys => ys.length
  | x :: xs, [] => (x :: xs).length
  | x :: xs, y :: ys =>
    if x = y then lev xs ys
    else 1 + min (lev xs ys) (min (lev (x :: xs) ys) (lev xs (y :: ys)))
termination_by xs ys => xs.length + ys.length

theorem lev_symm : ∀ (xs ys : List Char), lev xs ys = lev ys xs := by
  intro xs
  induction xs with
  | nil => intro ys; cases ys <;> simp [lev]
  | cons x xs ihx =>
    intro ys
    induction ys with
    | nil => simp [lev]
    | cons y ys ihy =>
      simp only [lev]
      by_cases h : x = y
      · subst h
        rw [if_pos rfl, if_pos rfl]
        exact ihx ys
      · rw [if_neg h, if_neg (fun hh => h hh.symm)]
        rw [ihx ys, ihx (y :: ys), ihy]
        rw [Nat.min_comm (lev ys (x :: xs)) (lev (y :: ys) xs)]

/-- Modelled from the spec: a similarity score from 0 to 100 computed from
    the Levenshtein distance; it is 100 exactly when the strings are equal,
    matching the documented "ratio of 100 degenerates to exact equality". -/
def simScore (a b : List Char) : Nat :=
  if max a.length b.length = 0 then 100
  else (100 * (max a.length b.length - lev a b)) / max a.length b.length

theorem simScore_symm (a b : List Char) : simScore a b = simScore b a := by
  unfold simScore
  rw [lev_symm, Nat.max_comm]

/-- Boolean prefix test on character lists. -/
def isPrefixList : List Char → List Char → Bool
  | [], _ => true
  | _ :: _, [] => false
  | a :: as, b :: bs => a == b && isPrefixList as bs

theorem isPrefixList_symm_of_length_eq :
    ∀ (a b : List Char), a.length = b.length →
      isPrefixList a b = isPrefixList b a := by
  intro a
  induction a with
  | nil => intro b h; cases b <;> simp_all [isPrefixList]
  | cons x xs ih =>
    intro b h
    cases b with
    | nil => simp at h
    | cons y ys =>
      simp only [isPrefixList]
      rw [Bool.beq_comm, ih ys (by simpa using h)]

/-- The startswith condition of the spec: the shorter normalized string is
    a prefix of the longer one. -/
def shorterPrefixOfLonger (a b : List Char) : Bool :=
  if a.length ≤ b.length then isPrefixList a b else isPrefixList b a

theorem shorterPrefixOfLonger_symm (a b : List Char) :
    shorterPrefixOfLonger a b = shorterPrefixOfLonger b a := by
  unfold shorterPrefixOfLonger
  rcases Nat.lt_trichotomy a.length b.length with h | h | h
  · rw [if_pos (Nat.le_of_lt h), if_neg (by omega)]
  · rw [if_pos (Nat.le_of_eq h), if_pos (Nat.le_of_eq h.symm),
      isPrefixList_symm_of_length_eq a b h]
  · rw [if_neg (by omega), if_pos (Nat.le_of_lt h)]

/-- Modelled from the spec: the phone-number filter of the `mobiles`
    alias - a value with an insufficient digit count is excluded from
    comparison entirely; the threshold is fixed at 6 digits. -/
def looksLikePhone (v : String) : Bool :=
  6 ≤ (v.data.filter Char.isDigit).length

/-- Modelled from the spec: the immutable matching configuration of the
    Attribute Matcher (read once at startup).  The accent/diacritic fold is
    an external transliteration, kept as a per-character parameter. -/
structure MatchConfig where
  no_match_approx : Bool
  match_min_length : Nat
  match_max_distance : Nat
  match_score_min : Nat
  same_first_letter : Bool
  match_startswith : Bool
  french_tweaks : Bool
  translit : Char → Char

/-- Modelled from the spec: the French tweak canonicalizing a phone number
    with the international prefix `+33` to a leading `0`. -/
def frenchizePhone (l : List Char) : List Char :=
  if l.take 3 = ['+', '3', '3'] then '0' :: l.drop 3 else l

/-- Modelled from the spec: the French tweak folding a leading name
    particle `de `. -/
def dropParticle (l : List Char) : List Char :=
  if l.take 3 = ['d', 'e', ' '] then l.drop 3 else l

/-- Modelled from the spec: normalization prior to comparison - accent
    fold (transliteration), case fold, and the French tweaks when
    enabled. -/
def normalizeValue (cfg : MatchConfig) (isTel : Bool) (v : String) : List Char :=
  let l := (v.data.map cfg.translit).map Char.toLower
  if cfg.french_tweaks then (if isTel then frenchizePhone l else dropParticle l)
  else l

/-- A matching dimension after alias expansion: an attribute kind plus the
    phone-number filter flag of the `mobiles` alias. -/
structure AttrSpec where
  kind : String
  phoneOnly : Bool
deriving DecidableEq, Repr

/-- Modelled from the spec: expansion of the composite aliases, done once
    per run - `names` expands to `fn` and `n`, `mobiles` to `tel` with the
    phone filter; any other name is a literal attribute kind. -/
def expandAttrSpecs (specs : List String) : List AttrSpec :=
  (specs.map fun s =>
    if s = "names" then [⟨"fn", false⟩, ⟨"n", false⟩]
    else if s = "mobiles" then [⟨"tel", true⟩]
    else [⟨s, false⟩]).flatten

/-- Modelled from the spec: the comparison of two already-normalized
    values - exact equality when approximate matching is disabled or either
    value is shorter than the minimum length; otherwise the
    same-first-letter pre-filter, then either the startswith mode (length
    difference within the symmetric window and the shorter a prefix of the
    longer) or the ratio mode (similarity score at least the threshold). -/
def approxOrExact (cfg : MatchConfig) (na nb : List Char) : Bool :=
  if cfg.no_match_approx ∨ na.length < cfg.match_min_length ∨
      nb.length < cfg.match_min_length then
    na == nb
  else if cfg.same_first_letter ∧ na.head? ≠ nb.head? then false
  else if cfg.match_startswith then
    decide (((na.length : Int) - (nb.length : Int)).natAbs ≤ cfg.match_max_distance)
      && shorterPrefixOfLonger na nb
  else decide (cfg.match_score_min ≤ simScore na nb)

/-- Modelled from the spec: the Attribute Matcher
    `matches(valueA, valueB, kind, config)`; values failing the phone
    filter of a `mobiles` dimension never contribute a match. -/
def attrValuesMatch (cfg : MatchConfig) (sp : AttrSpec) (va vb : String) : Bool :=
  if sp.phoneOnly && (!looksLikePhone va || !looksLikePhone vb) then false
  else approxOrExact cfg
    (normalizeValue cfg (sp.kind == "tel") va)
    (normalizeValue cfg (sp.kind == "tel") vb)

/-- A contact record viewed by the comparator: the list of values carried
    for each attribute kind. -/
def VcRecord : Type := String → List String

/-- Modelled from the spec: the Pairwise Record Comparator
    `recordsMatch(A, B, matchAttributeSpecs, config)` - true iff some
    expanded attribute dimension has some value pair (cartesian product)
    matched by the Attribute Matcher. -/
def recordsMatch (cfg : MatchConfig) (specs : List String)
    (A B : VcRecord) : Bool :=
  (expandAttrSpecs specs).any fun sp =>
    (A sp.kind).any fun va => (B sp.kind).any fun vb =>
      attrValuesMatch cfg sp va vb

theorem approxOrExact_symm (cfg : MatchConfig) (na nb : List Char) :
    approxOrExact cfg na nb = approxOrExact cfg nb na := by
  unfold approxOrExact
  by_cases h1 : cfg.no_match_approx = true ∨ na.length < cfg.match_min_length ∨
      nb.length < cfg.match_min_length
  · have h1' : cfg.no_match_approx = true ∨ nb.length < cfg.match_min_length ∨
        na.length < cfg.match_min_length := by tauto
    rw [if_pos h1, if_pos h1', Bool.beq_comm]
  · have h1' : ¬(cfg.no_match_approx = true ∨ nb.length < cfg.match_min_length ∨
        na.length < cfg.match_min_length) := by tauto
    rw [if_neg h1, if_neg h1']
    by_cases h2 : cfg.same_first_letter = true ∧ na.head? ≠ nb.head?
    · have h2' : cfg.same_first_letter = true ∧ nb.head? ≠ na.head? :=
        ⟨h2.1, fun e => h2.2 e.symm⟩
      rw [if_pos h2, if_pos h2']
    · have h2' : ¬(cfg.same_first_letter = true ∧ nb.head? ≠ na.head?) :=
        fun hh => h2 ⟨hh.1, fun e => hh.2 e.symm⟩
      rw [if_neg h2, if_neg h2']
      by_cases h3 : cfg.match_startswith = true
      · rw [if_pos h3, if_pos h3]
        rw [shorterPrefixOfLonger_symm]
        have habs : (((na.length : Int) - (nb.length : Int)).natAbs ≤
            cfg.match_max_distance) ↔
            (((nb.length : Int) - (na.length : Int)).natAbs ≤
            cfg.match_max_distance) := by omega
        rw [decide_eq_decide.mpr habs]
      · rw [if_neg h3, if_neg h3]
        rw [simScore_symm]

theorem attrValuesMatch_symm (cfg : MatchConfig) (sp : AttrSpec)
    (va vb : String) :
    attrValuesMatch cfg sp va vb = attrValuesMatch cfg sp vb va := by
  unfold attrValuesMatch
  by_cases h : (sp.phoneOnly && (!looksLikePhone va || !looksLikePhone vb)) = true
  · rw [if_pos h, if_pos (by rw [Bool.or_comm] at h; exact h)]
  · rw [if_neg h, if_neg (by rw [Bool.or_comm] at h; exact h)]
    exact approxOrExact_symm cfg _ _

theorem list_any_ext {α : Type} (l : List α) (f g : α → Bool)
    (h : ∀ a ∈ l, f a = g a) : l.any f = l.any g := by
  induction l with
  | nil => rfl
  | cons x xs ih =>
    simp only [List.any_cons]
    rw [h x (List.mem_cons_self _ _), ih fun a ha => h a (List.mem_cons_of_mem _ ha)]

theorem any_any_swap {α β : Type} (l1 : List α) (l2 : List β) (g : α → β → Bool) :
    (l1.any fun a => l2.any fun b => g a b)
      = (l2.any fun b => l1.any fun a => g a b) := by
  rw [Bool.eq_iff_iff]
  simp only [List.any_eq_true]
  constructor
  · rintro ⟨a, ha, b, hb, hg⟩
    exact ⟨b, hb, a, ha, hg⟩
  · rintro ⟨b, hb, a, ha, hg⟩
    exact ⟨a, ha, b, hb, hg⟩

/-- C6: for all records A and B and every fixed match-attribute
configuration, the pairwise record comparator is symmetric:
`recordsMatch(A, B)` equals `recordsMatch(B, A)`. -/
theorem c6_recordsMatch_symm (cfg : MatchConfig) (specs : List String)
    (A B : VcRecord) :
    recordsMatch cfg specs A B = recordsMatch cfg specs B A := by
  unfold recordsMatch
  refine list_any_ext _ _ _ fun sp _ => ?_
  rw [any_any_swap]
  refine list_any_ext _ _ _ fun vb _ => ?_
  refine list_any_ext _ _ _ fun va _ => ?_
  exact attrValuesMatch_symm cfg sp va vb
